import Mathlib

/-!
Shallow embedding of the single-decree Paxos state machine
(`paxos-state-machine/src/{types,msg,proposer,acceptor,learner}.rs`).

Modelling conventions:
* `u64` values become `Nat`; saturating arithmetic is made explicit with
  `min · U64MAX`.
* `HashSet` becomes a duplicate-free `List` (insert-if-absent); `HashMap`
  becomes an association `List`.  Only membership, size and key lookup are
  used by the source, so list order is immaterial except for broadcast
  iteration order, which the source leaves unspecified anyway.
* `types.rs` declares `ProposalId = (u64, NodeId)` (lexicographic tuple
  order), and the acceptor and learner use it that way; `proposer.rs`
  instead manipulates its proposal ids as a flat `u64` counter
  (`next_id: 0`, `saturating_add`).  The message and action types are
  therefore parametrised by the proposal-id type `P`: the acceptor and
  learner instantiate `P := Pid = Nat × Nat`, the proposer `P := Nat`,
  each exactly as its own code reads.
* Rust methods `&mut self -> Vec<Action>` become `State → State × List Action`.
-/

namespace PaxosSM

/-- `types.rs`: `pub type NodeId = u64;` -/
abbrev NodeId := Nat

/-- `types.rs`: `pub type ProposalId = (u64, NodeId);` (as used by acceptor/learner). -/
abbrev Pid := Nat × Nat

/-- `types.rs`: `pub type TimerId = (u64, NodeId);` -/
abbrev TimerId := Nat × Nat

/-- Largest `u64` value, for the saturating operations of `proposer.rs`. -/
def U64MAX : Nat := 2 ^ 64 - 1

/-- `u64::saturating_add(1)`. -/
def satAdd1 (x : Nat) : Nat := min (x + 1) U64MAX

/-- `u64::saturating_mul(2)`. -/
def satMul2 (x : Nat) : Nat := min (x * 2) U64MAX

/-- `types.rs`: `NodeContext { number_of_nodes: u64 }`. -/
structure NodeContext where
  number_of_nodes : Nat
deriving DecidableEq, Repr

/-- Rust derived tuple `Ord` on `(u64, u64)` is lexicographic; this is the
`<=` relation the acceptor's `proposal_id >= p` comparisons use. -/
def pidLe (a b : Pid) : Prop := a.1 < b.1 ∨ (a.1 = b.1 ∧ a.2 ≤ b.2)

instance (a b : Pid) : Decidable (pidLe a b) := by unfold pidLe; infer_instance

/-- `proposer.rs`: `Proposal<V> { id, value }`, parametrised over the
proposal-id type `P` (see header note). Rust's `Eq/Ord/Hash` are on `id`
only; the set/maximum operations below encode that explicitly. -/
structure Proposal (P V : Type) where
  id : P
  value : V
deriving DecidableEq, Repr

/-- `msg.rs`: the message alphabet. -/
inductive PaxosMsg (P V : Type) where
  | Prepare (proposal_id : P) (from_ : NodeId)
  | Promise (accepted_proposal : Option (Proposal P V)) (proposal_response : P)
  | AcceptProposal (proposal_id : P) (value : V)
  | Accepted (proposal : Proposal P V)
  | Learn (proposal_id : P) (value : V)
deriving DecidableEq, Repr

/-- `types.rs`: `Action<V>`.  The proposer's `queue_to_majority` builds
`Action::Send { to, msg }` without the `from` field declared in `types.rs`;
the embedding supplies the only value in scope, the sending node's own id. -/
inductive Action (P V : Type) where
  | Send (to_ : NodeId) (from_ : NodeId) (msg : PaxosMsg P V)
  | SetTimer (id : TimerId) (ms : Nat)
  | CancelTimer (id : TimerId)
  | ProposeValue (v : V)
  | ChoseValue (v : V)
deriving DecidableEq, Repr

/-- The three entry points of the `HandlesEvents` trait (`types.rs`),
as an invocation alphabet for whole-history theorems. -/
inductive RoleCall (P V : Type) where
  | init
  | message (from_ : NodeId) (msg : PaxosMsg P V)
  | timeout (id : TimerId)
deriving DecidableEq, Repr

/-! ## Acceptor (`acceptor.rs`) -/

/-- `acceptor.rs`: `Acceptor<V>`.  `learners: HashSet<NodeId>` is modelled
as the list of learners in iteration order. -/
structure Acceptor (V : Type) where
  context : NodeContext
  node_id : NodeId
  latest_accepted_proposal : Option (Proposal Pid V)
  latest_promise : Option Pid
  learners : List NodeId
deriving DecidableEq, Repr

namespace Acceptor

/-- `Acceptor::new`. -/
def new (V : Type) (node_id : NodeId) (context : NodeContext)
    (learners : List NodeId) : Acceptor V :=
  { context := context
    node_id := node_id
    latest_accepted_proposal := none
    latest_promise := none
    learners := learners }

/-- `self.latest_promise.map_or(true, |p| proposal_id >= p)` — the guard of
both the `Prepare` and the `AcceptProposal` branch. -/
def can_promise (o : Option Pid) (proposal_id : Pid) : Bool :=
  match o with
  | none => true
  | some p => decide (pidLe p proposal_id)

/-- `Acceptor::learners_broadcast`. -/
def learners_broadcast {V : Type} (a : Acceptor V) (msg : PaxosMsg Pid V) :
    List (Action Pid V) :=
  a.learners.map (fun dst => Action.Send dst a.node_id msg)

/-- `Acceptor::on_message`. -/
def on_message {V : Type} (a : Acceptor V) (_from : NodeId)
    (msg : PaxosMsg Pid V) : Acceptor V × List (Action Pid V) :=
  match msg with
  | PaxosMsg.Prepare proposal_id proposer =>
      if can_promise a.latest_promise proposal_id then
        ({ a with latest_promise := some proposal_id },
         [Action.Send proposer a.node_id
            (PaxosMsg.Promise a.latest_accepted_proposal proposal_id)])
      else (a, [])
  | PaxosMsg.AcceptProposal proposal_id value =>
      if can_promise a.latest_promise proposal_id then
        ({ a with latest_promise := some proposal_id
                  latest_accepted_proposal := some ⟨proposal_id, value⟩ },
         learners_broadcast a (PaxosMsg.Learn proposal_id value))
      else (a, [])
  | _ => (a, [])

/-- `Acceptor::on_init`. -/
def on_init {V : Type} (a : Acceptor V) : Acceptor V × List (Action Pid V) :=
  (a, [])

/-- `Acceptor::on_timeout`. -/
def on_timeout {V : Type} (a : Acceptor V) (_id : TimerId) :
    Acceptor V × List (Action Pid V) :=
  (a, [])

/-- Dispatch one trait invocation (the `HandlesEvents` surface). -/
def handle {V : Type} (a : Acceptor V) :
    RoleCall Pid V → Acceptor V × List (Action Pid V)
  | RoleCall.init => a.on_init
  | RoleCall.message f m => a.on_message f m
  | RoleCall.timeout id => a.on_timeout id

/-- State after a whole history of invocations. -/
def run {V : Type} (a : Acceptor V) (calls : List (RoleCall Pid V)) :
    Acceptor V :=
  calls.foldl (fun s c => (handle s c).1) a

end Acceptor

/-! ## Learner (`learner.rs`) -/

/-- Key lookup in the association list modelling `acks : HashMap<ProposalId, HashSet<NodeId>>`. -/
def findAcks (acks : List (Pid × List NodeId)) (pid : Pid) : Option (List NodeId) :=
  match acks with
  | [] => none
  | (k, s) :: rest => if k = pid then some s else findAcks rest pid

/-- Update-or-insert for the acks map (`entry(pid).or_insert_with(..)` + write-back). -/
def setAcks (acks : List (Pid × List NodeId)) (pid : Pid) (s : List NodeId) :
    List (Pid × List NodeId) :=
  match acks with
  | [] => [(pid, s)]
  | (k, s0) :: rest =>
      if k = pid then (pid, s) :: rest else (k, s0) :: setAcks rest pid s

/-- `self.acks.retain(|seen_pid, _| *seen_pid != pid)`. -/
def removeAcks (acks : List (Pid × List NodeId)) (pid : Pid) :
    List (Pid × List NodeId) :=
  acks.filter (fun kv => kv.1 ≠ pid)

/-- Key lookup in the association list modelling `chosen : HashMap<ProposalId, V>`. -/
def findChosen {V : Type} (chosen : List (Pid × V)) (pid : Pid) : Option V :=
  match chosen with
  | [] => none
  | (k, v) :: rest => if k = pid then some v else findChosen rest pid

/-- `learner.rs`: `Learner<V>`. -/
structure Learner (V : Type) where
  node_id : NodeId
  quorum : Nat
  acks : List (Pid × List NodeId)
  chosen : List (Pid × V)
deriving DecidableEq, Repr

namespace Learner

/-- `Learner::new`: `quorum = number_of_nodes / 2 + 1`. -/
def new (V : Type) (node_id : NodeId) (context : NodeContext) : Learner V :=
  { node_id := node_id
    quorum := context.number_of_nodes / 2 + 1
    acks := []
    chosen := [] }

/-- `Learner::get_chosen`. -/
def get_chosen {V : Type} (l : Learner V) (pid : Pid) : Option V :=
  findChosen l.chosen pid

/-- `Learner::record_accepted`.  Returns the updated learner and
`Some v` exactly when this acknowledgment crosses quorum now. -/
def record_accepted {V : Type} (l : Learner V) (from_ : NodeId) (pid : Pid)
    (v : V) : Learner V × Option V :=
  if (findChosen l.chosen pid).isSome then (l, none)
  else
    let entry := (findAcks l.acks pid).getD []
    if from_ ∈ entry then (l, none)
    else
      let entry' := from_ :: entry
      if l.quorum ≤ entry'.length then
        ({ l with chosen := (pid, v) :: l.chosen
                  acks := removeAcks l.acks pid }, some v)
      else ({ l with acks := setAcks l.acks pid entry' }, none)

/-- `Learner::on_message`: only the `Accepted` variant is handled. -/
def on_message {V : Type} (l : Learner V) (from_ : NodeId)
    (msg : PaxosMsg Pid V) : Learner V × List (Action Pid V) :=
  match msg with
  | PaxosMsg.Accepted proposal =>
      let r := record_accepted l from_ proposal.id proposal.value
      (r.1, match r.2 with
            | some chosen_v => [Action.ChoseValue chosen_v]
            | none => [])
  | _ => (l, [])

/-- `Learner::on_init`. -/
def on_init {V : Type} (l : Learner V) : Learner V × List (Action Pid V) :=
  (l, [])

/-- `Learner::on_timeout`. -/
def on_timeout {V : Type} (l : Learner V) (_id : TimerId) :
    Learner V × List (Action Pid V) :=
  (l, [])

/-- Dispatch one trait invocation. -/
def handle {V : Type} (l : Learner V) :
    RoleCall Pid V → Learner V × List (Action Pid V)
  | RoleCall.init => l.on_init
  | RoleCall.message f m => l.on_message f m
  | RoleCall.timeout id => l.on_timeout id

/-- State after a whole history of invocations. -/
def run {V : Type} (l : Learner V) (calls : List (RoleCall Pid V)) :
    Learner V :=
  calls.foldl (fun s c => (handle s c).1) l

end Learner

/-! ## Proposer (`proposer.rs`)

The proposer uses its proposal ids as a flat `u64` counter
(`next_id: 0`, `next_id.saturating_add(1)`), so its messages and actions
are instantiated with `P := Nat`. -/

/-- `HashSet<NodeId>::insert`: add if absent. -/
def insertNode (s : List NodeId) (n : NodeId) : List NodeId :=
  if n ∈ s then s else n :: s

/-- `HashSet<Proposal<V>>::insert`, where `Eq`/`Hash` of `Proposal` are on
`id` only: a proposal with an already-present id is dropped, keeping the
first. -/
def insertProposal {V : Type} (s : List (Proposal Nat V))
    (p : Proposal Nat V) : List (Proposal Nat V) :=
  if s.any (fun q => q.id = p.id) then s else p :: s

/-- `iter().max()` over the proposal set, with `Ord` on `id`
(ids are unique in the set by construction of `insertProposal`). -/
def maxProposal {V : Type} (s : List (Proposal Nat V)) :
    Option (Proposal Nat V) :=
  s.foldl (fun acc p =>
    match acc with
    | none => some p
    | some q => if q.id < p.id then some p else some q) none

/-- `proposer.rs`: `ProposerPhase1State<V>`. -/
structure ProposerPhase1State (V : Type) where
  context : NodeContext
  proposal : Nat
  node_responses : List NodeId
  proposal_responses : List (Proposal Nat V)
deriving DecidableEq, Repr

namespace ProposerPhase1State

/-- `ProposerPhase1State::new`. -/
def new (V : Type) (proposal_id : Nat) (context : NodeContext) :
    ProposerPhase1State V :=
  { context := context
    proposal := proposal_id
    node_responses := []
    proposal_responses := [] }

/-- `ProposerPhase1State::add_response`.  Mirrors the source exactly: the
accepted proposal (if any) is inserted first, then the responding node;
when the distinct-responder count reaches `number_of_nodes / 2 + 1` the
method returns `[ProposeValue v]` for the maximum reported proposal, or
`[]` when no accepted proposal was ever reported. -/
def add_response {V : Type} (s : ProposerPhase1State V) (node_id : NodeId)
    (proposal_accepted : Option (Proposal Nat V)) (prepare_id : Nat) :
    ProposerPhase1State V × List (Action Nat V) :=
  if prepare_id ≠ s.proposal then (s, [])
  else
    let s1 :=
      match proposal_accepted with
      | some p =>
          { s with proposal_responses :=
              insertProposal s.proposal_responses ⟨p.id, p.value⟩ }
      | none => s
    let s2 := { s1 with node_responses := insertNode s1.node_responses node_id }
    if s2.context.number_of_nodes / 2 + 1 ≤ s2.node_responses.length then
      match maxProposal s2.proposal_responses with
      | some p => (s2, [Action.ProposeValue p.value])
      | none => (s2, [])
    else (s2, [])

end ProposerPhase1State

/-- `proposer.rs`: `ProposerPhase2State<V>`. -/
structure ProposerPhase2State (V : Type) where
  context : NodeContext
  proposal : Proposal Nat V
  accepted_nodes : List NodeId
deriving DecidableEq, Repr

namespace ProposerPhase2State

/-- `ProposerPhase2State::new`. -/
def new {V : Type} (proposal : Proposal Nat V) (context : NodeContext) :
    ProposerPhase2State V :=
  { context := context
    proposal := proposal
    accepted_nodes := [] }

/-- `ProposerPhase2State::add_accepted`. -/
def add_accepted {V : Type} (s : ProposerPhase2State V) (node_id : NodeId)
    (referring_proposal : Nat) : ProposerPhase2State V × List (Action Nat V) :=
  if node_id ∈ s.accepted_nodes ∨ referring_proposal ≠ s.proposal.id then
    (s, [])
  else
    let s1 := { s with accepted_nodes := insertNode s.accepted_nodes node_id }
    if s1.context.number_of_nodes / 2 + 1 ≤ s1.accepted_nodes.length then
      (s1, [Action.ChoseValue s1.proposal.value])
    else (s1, [])

end ProposerPhase2State

/-- `proposer.rs`: `enum Phase<V>`. -/
inductive Phase (V : Type) where
  | Idle
  | Phase1 (s : ProposerPhase1State V)
  | Phase2 (s : ProposerPhase2State V)
deriving DecidableEq, Repr

/-- `proposer.rs`: `Proposer<V>`. -/
structure Proposer (V : Type) where
  node_id : NodeId
  node_context : NodeContext
  majority : List NodeId
  next_id : Nat
  proposed_value : V
  phase : Phase V
  timer_id : TimerId
  timer_duration_ms : Nat
deriving DecidableEq, Repr

namespace Proposer

/-- `Proposer::new`.  Note `majority: vec![0; context.number_of_nodes]`:
a list of `number_of_nodes` copies of node id `0`. -/
def new (V : Type) (node_id : NodeId) (context : NodeContext)
    (proposed_value : V) (timer_initial_duration_ms : Nat) : Proposer V :=
  { node_id := node_id
    node_context := context
    majority := List.replicate context.number_of_nodes 0
    next_id := 0
    proposed_value := proposed_value
    phase := Phase.Idle
    timer_id := (0, node_id)
    timer_duration_ms := timer_initial_duration_ms }

/-- `Proposer::next_proposal_id`: returns the current `next_id`, then
saturating-increments it. -/
def next_proposal_id {V : Type} (p : Proposer V) : Nat × Proposer V :=
  (p.next_id, { p with next_id := satAdd1 p.next_id })

/-- `Proposer::next_timer_id`: writes `(next_id, node_id)` into
`self.timer_id` but *returns* `(node_id, node_id)` — exactly as the
source reads. -/
def next_timer_id {V : Type} (p : Proposer V) : TimerId × Proposer V :=
  ((p.node_id, p.node_id), { p with timer_id := (p.next_id, p.node_id) })

/-- `Proposer::queue_to_majority`. -/
def queue_to_majority {V : Type} (p : Proposer V) (n : Nat) :
    List (Action Nat V) :=
  p.majority.map (fun dst =>
    Action.Send dst p.node_id (PaxosMsg.Prepare n p.node_id))

/-- `Proposer::on_phase1_start`. -/
def on_phase1_start {V : Type} (p : Proposer V) :
    Proposer V × List (Action Nat V) :=
  let np := next_proposal_id p
  let n := np.1
  let p1 := { np.2 with phase := Phase.Phase1 (ProposerPhase1State.new V n np.2.node_context) }
  let tp := next_timer_id p1
  let tid := tp.1
  let p2 := { tp.2 with timer_id := tid }
  (p2, queue_to_majority p2 n ++ [Action.SetTimer tid p2.timer_duration_ms])

/-- `Proposer::on_init`. -/
def on_init {V : Type} (p : Proposer V) : Proposer V × List (Action Nat V) :=
  on_phase1_start p

/-- `Proposer::on_message`.  In the `(Phase1, Promise)` arm the source
calls `p1.add_response(..)` for its state effect and **discards the
returned actions**, producing `vec![]`; every other arm is `_ => vec![]`. -/
def on_message {V : Type} (p : Proposer V) (node_id : NodeId)
    (msg : PaxosMsg Nat V) : Proposer V × List (Action Nat V) :=
  match p.phase, msg with
  | Phase.Phase1 p1, PaxosMsg.Promise accepted_proposal proposal_response =>
      let r := p1.add_response node_id accepted_proposal proposal_response
      ({ p with phase := Phase.Phase1 r.1 }, [])
  | _, _ => (p, [])

/-- `Proposer::on_timeout`. -/
def on_timeout {V : Type} (p : Proposer V) (id : TimerId) :
    Proposer V × List (Action Nat V) :=
  if p.timer_id ≠ id then (p, [])
  else
    match p.phase with
    | Phase.Phase1 _ =>
        on_phase1_start { p with timer_duration_ms := satMul2 p.timer_duration_ms }
    | Phase.Phase2 _ =>
        on_phase1_start { p with timer_duration_ms := satMul2 p.timer_duration_ms }
    | Phase.Idle => (p, [])

end Proposer

/-! ## Derived predicates -/

/-- Comparison of two `latest_promise` values: an unset promise may grow into
anything; a set promise may only grow lexicographically. -/
def promiseLeOpt : Option Pid → Option Pid → Prop
  | none, _ => True
  | some _, none => False
  | some p, some q => pidLe p q

/-- Whenever `latest_accepted_proposal` is set, `latest_promise` is set and
at least as large (spec P2). -/
def accConsistent {V : Type} (a : Acceptor V) : Prop :=
  match a.latest_accepted_proposal, a.latest_promise with
  | none, _ => True
  | some _, none => False
  | some pr, some lp => pidLe pr.id lp

/-- The proposer of node `0` in a 3-node cluster (initial timer 100 ms) after
`k` successive round starts (`on_phase1_start` applied `k` times to a fresh
proposer): the iteration used to settle the proposal-id monotonicity claim. -/
def proposerAfter (k : Nat) : Proposer Unit :=
  match k with
  | 0 => Proposer.new Unit 0 ⟨3⟩ () 100
  | k + 1 => (Proposer.on_phase1_start (proposerAfter k)).1

/-! ## Helper lemmas -/

lemma pidLe_refl (a : Pid) : pidLe a a := Or.inr ⟨rfl, le_refl _⟩

lemma pidLe_trans {a b c : Pid} (h1 : pidLe a b) (h2 : pidLe b c) : pidLe a c := by
  unfold pidLe at *; omega

lemma promiseLeOpt_refl (o : Option Pid) : promiseLeOpt o o := by
  cases o with
  | none => trivial
  | some p => exact pidLe_refl p

lemma can_promise_true_iff (o : Option Pid) (n : Pid) :
    Acceptor.can_promise o n = true ↔ promiseLeOpt o (some n) := by
  cases o <;> simp [Acceptor.can_promise, promiseLeOpt]

lemma acceptor_handle_step {V : Type} (a : Acceptor V) (c : RoleCall Pid V)
    (h : accConsistent a) :
    promiseLeOpt a.latest_promise ((Acceptor.handle a c).1).latest_promise ∧
      accConsistent (Acceptor.handle a c).1 := by
  cases c with
  | init => exact ⟨promiseLeOpt_refl _, h⟩
  | timeout id => exact ⟨promiseLeOpt_refl _, h⟩
  | message f m =>
    show promiseLeOpt a.latest_promise ((Acceptor.on_message a f m).1).latest_promise ∧
      accConsistent (Acceptor.on_message a f m).1
    cases m with
    | Prepare pid proposer =>
      by_cases hc : Acceptor.can_promise a.latest_promise pid = true
      · have hle := (can_promise_true_iff _ _).1 hc
        simp only [Acceptor.on_message, hc, if_true]
        refine ⟨hle, ?_⟩
        unfold accConsistent at h ⊢
        cases hacc : a.latest_accepted_proposal with
        | none => simp [hacc]
        | some pr =>
          simp only [hacc]
          cases hlp : a.latest_promise with
          | none => rw [hacc, hlp] at h; exact absurd h (by simp)
          | some lp =>
            rw [hacc, hlp] at h
            rw [hlp] at hle
            exact pidLe_trans h hle
      · simp only [Acceptor.on_message, hc, if_false]
        exact ⟨promiseLeOpt_refl _, h⟩
    | Promise ap pr => exact ⟨promiseLeOpt_refl _, h⟩
    | Accepted prop => exact ⟨promiseLeOpt_refl _, h⟩
    | Learn pid v => exact ⟨promiseLeOpt_refl _, h⟩
    | AcceptProposal pid v =>
      by_cases hc : Acceptor.can_promise a.latest_promise pid = true
      · have hle := (can_promise_true_iff _ _).1 hc
        simp only [Acceptor.on_message, hc, if_true]
        exact ⟨hle, pidLe_refl pid⟩
      · simp only [Acceptor.on_message, hc, if_false]
        exact ⟨promiseLeOpt_refl _, h⟩

lemma acceptor_run_consistent {V : Type} (calls : List (RoleCall Pid V))
    (a : Acceptor V) (h : accConsistent a) :
    accConsistent (Acceptor.run a calls) := by
  induction calls generalizing a with
  | nil => exact h
  | cons c rest ih =>
    exact ih _ (acceptor_handle_step a c h).2

lemma acceptor_new_consistent (V : Type) (nid : NodeId) (ctx : NodeContext)
    (lrn : List NodeId) : accConsistent (Acceptor.new V nid ctx lrn) := trivial

/-- C9: for every Acceptor and every sequence of handler invocations from a
fresh `Acceptor::new`, `latest_promise` never decreases across an invocation,
and after any invocation, whenever `latest_accepted_proposal = Some((n, v))`,
`latest_promise` is set and `latest_promise ≥ n` (lexicographically). -/
theorem acceptor_promise_monotone_and_consistent (V : Type) (nid : NodeId)
    (ctx : NodeContext) (lrn : List NodeId) (calls : List (RoleCall Pid V))
    (c : RoleCall Pid V) :
    promiseLeOpt (Acceptor.run (Acceptor.new V nid ctx lrn) calls).latest_promise
      ((Acceptor.handle (Acceptor.run (Acceptor.new V nid ctx lrn) calls) c).1).latest_promise
    ∧ accConsistent (Acceptor.handle (Acceptor.run (Acceptor.new V nid ctx lrn) calls) c).1 :=
  acceptor_handle_step _ c
    (acceptor_run_consistent calls _ (acceptor_new_consistent V nid ctx lrn))


/-- No proposal id is a key of both the `acks` and the `chosen` map. -/
def acksChosenDisjoint {V : Type} (l : Learner V) : Prop :=
  ∀ pid : Pid, (findChosen l.chosen pid).isSome → findAcks l.acks pid = none

/-- Every `chosen` entry of `l` persists unchanged in `l'`. -/
def chosenFrozen {V : Type} (l l' : Learner V) : Prop :=
  ∀ pid : Pid, (findChosen l.chosen pid).isSome →
    findChosen l'.chosen pid = findChosen l.chosen pid

lemma findAcks_setAcks (acks : List (Pid × List NodeId)) (pid q : Pid)
    (s : List NodeId) :
    findAcks (setAcks acks pid s) q = if q = pid then some s else findAcks acks q := by
  induction acks with
  | nil =>
    by_cases h : q = pid
    · subst h; simp [setAcks, findAcks]
    · simp [setAcks, findAcks, h, Ne.symm h]
  | cons kv rest ih =>
    obtain ⟨k, s0⟩ := kv
    by_cases hk : k = pid
    · subst hk
      simp only [setAcks, if_true, findAcks]
      by_cases hq : q = k
      · subst hq; simp
      · simp [hq, Ne.symm hq]
    · simp only [setAcks, hk, if_false, findAcks]
      by_cases hq : k = q
      · subst hq
        have hqp : ¬ k = pid := hk
        simp [hqp]
      · simp [hq, ih]

lemma findAcks_removeAcks (acks : List (Pid × List NodeId)) (pid q : Pid) :
    findAcks (removeAcks acks pid) q = if q = pid then none else findAcks acks q := by
  induction acks with
  | nil => simp [removeAcks, findAcks]
  | cons kv rest ih =>
    obtain ⟨k, s0⟩ := kv
    by_cases hk : k = pid
    · subst hk
      have hdrop : removeAcks ((k, s0) :: rest) k = removeAcks rest k := by
        simp [removeAcks]
      rw [hdrop, ih]
      by_cases hq : q = k
      · simp [hq]
      · simp [hq, findAcks, Ne.symm hq]
    · have hkeep : removeAcks ((k, s0) :: rest) pid = (k, s0) :: removeAcks rest pid := by
        simp [removeAcks, hk]
      rw [hkeep]
      simp only [findAcks]
      by_cases hq : k = q
      · subst hq
        have hqp : ¬ k = pid := hk
        simp [hqp]
      · simp [hq, ih]

lemma learner_handle_step {V : Type} (l : Learner V) (c : RoleCall Pid V)
    (h : acksChosenDisjoint l) :
    acksChosenDisjoint (Learner.handle l c).1 ∧ chosenFrozen l (Learner.handle l c).1 := by
  have hfr : chosenFrozen l l := fun pid _ => rfl
  cases c with
  | init => exact ⟨h, hfr⟩
  | timeout id => exact ⟨h, hfr⟩
  | message f m =>
    show acksChosenDisjoint (Learner.on_message l f m).1 ∧
      chosenFrozen l (Learner.on_message l f m).1
    cases m with
    | Prepare pid pr => exact ⟨h, hfr⟩
    | Promise ap pr => exact ⟨h, hfr⟩
    | AcceptProposal pid v => exact ⟨h, hfr⟩
    | Learn pid v => exact ⟨h, hfr⟩
    | Accepted prop =>
      obtain ⟨pid0, v⟩ := prop
      simp only [Learner.on_message, Learner.record_accepted]
      by_cases hch : (findChosen l.chosen pid0).isSome = true
      · rw [if_pos hch]
        exact ⟨h, hfr⟩
      · rw [if_neg hch]
        by_cases hmem : f ∈ (findAcks l.acks pid0).getD []
        · rw [if_pos hmem]
          exact ⟨h, hfr⟩
        · rw [if_neg hmem]
          by_cases hq : l.quorum ≤ (f :: (findAcks l.acks pid0).getD []).length
          · rw [if_pos hq]
            dsimp only
            constructor
            · intro q hqs
              dsimp only at hqs
              rw [findAcks_removeAcks]
              by_cases hq0 : q = pid0
              · simp [hq0]
              · rw [if_neg hq0]
                have hne : ¬ pid0 = q := Ne.symm hq0
                rw [show findChosen ((pid0, v) :: l.chosen) q = findChosen l.chosen q
                      from by simp [findChosen, hne]] at hqs
                exact h q hqs
            · intro q hqs
              have hq0 : ¬ pid0 = q := by
                intro hh
                subst hh
                exact hch hqs
              simp [findChosen, hq0]
          · rw [if_neg hq]
            dsimp only
            constructor
            · intro q hqs
              dsimp only at hqs
              rw [findAcks_setAcks]
              by_cases hq0 : q = pid0
              · subst hq0
                exact absurd hqs hch
              · rw [if_neg hq0]
                exact h q hqs
            · exact hfr

lemma learner_run_disjoint {V : Type} (calls : List (RoleCall Pid V))
    (l : Learner V) (h : acksChosenDisjoint l) :
    acksChosenDisjoint (Learner.run l calls) := by
  induction calls generalizing l with
  | nil => exact h
  | cons c rest ih => exact ih _ (learner_handle_step l c h).1

lemma learner_new_disjoint (V : Type) (nid : NodeId) (ctx : NodeContext) :
    acksChosenDisjoint (Learner.new V nid ctx) := by
  intro pid hq
  simp [Learner.new, findChosen] at hq

/-- C10: for every Learner and every sequence of handler invocations from a
fresh `Learner::new`, no `ProposalId` is ever a key of both the `acks` map and
the `chosen` map (before and after each further invocation), and every
`chosen` entry persists unchanged across any further invocation (so once
`chosen[pid]` is set, later `Accepted` messages neither re-create `acks[pid]`
— by the preserved disjointness — nor modify `chosen[pid]`). -/
theorem learner_chosen_acks_exclusive (V : Type) (nid : NodeId)
    (ctx : NodeContext) (calls : List (RoleCall Pid V)) (c : RoleCall Pid V) :
    acksChosenDisjoint (Learner.run (Learner.new V nid ctx) calls) ∧
    acksChosenDisjoint (Learner.handle (Learner.run (Learner.new V nid ctx) calls) c).1 ∧
    chosenFrozen (Learner.run (Learner.new V nid ctx) calls)
      (Learner.handle (Learner.run (Learner.new V nid ctx) calls) c).1 := by
  have hrun := learner_run_disjoint calls _ (learner_new_disjoint V nid ctx)
  have hstep := learner_handle_step _ c hrun
  exact ⟨hrun, hstep.1, hstep.2⟩

/-- C7 (amended): delivering `Accepted { (pid, v) }` from `f` to a Learner
emits either `[ChoseValue v]` or nothing, and it emits `[ChoseValue v]` iff
`pid` has no chosen entry yet, `f` has not acknowledged `pid` before, and the
acknowledgment count for `pid` — counted per `pid` alone, regardless of the
value each acknowledgment carried — reaches `quorum` with this message.  The
original claim (quorum of matching `(pid, v)` pairs) fails on the code: see
the counterexample `learner_mixed_values_cex`, where the crossing message's
value is chosen even though no value has quorum-many acknowledgments. -/
theorem learner_quorum_trigger (V : Type) (l : Learner V) (f : NodeId)
    (pid : Pid) (v : V) :
    ((Learner.on_message l f (PaxosMsg.Accepted ⟨pid, v⟩)).2 = [Action.ChoseValue v] ∨
      (Learner.on_message l f (PaxosMsg.Accepted ⟨pid, v⟩)).2 = []) ∧
    ((Learner.on_message l f (PaxosMsg.Accepted ⟨pid, v⟩)).2 = [Action.ChoseValue v] ↔
      findChosen l.chosen pid = none ∧
      f ∉ (findAcks l.acks pid).getD [] ∧
      l.quorum ≤ ((findAcks l.acks pid).getD []).length + 1) := by
  simp only [Learner.on_message, Learner.record_accepted]
  by_cases hch : (findChosen l.chosen pid).isSome = true
  · have hns : ¬ findChosen l.chosen pid = none := by
      intro hh
      rw [hh] at hch
      simp at hch
    rw [if_pos hch]
    simp [hns]
  · have hnone : findChosen l.chosen pid = none := by
      cases hcc : findChosen l.chosen pid with
      | none => rfl
      | some w =>
        rw [hcc] at hch
        simp at hch
    rw [if_neg hch]
    by_cases hmem : f ∈ (findAcks l.acks pid).getD []
    · rw [if_pos hmem]
      simp [hmem]
    · rw [if_neg hmem]
      by_cases hq : l.quorum ≤ (f :: (findAcks l.acks pid).getD []).length
      · have hq2 : l.quorum ≤ ((findAcks l.acks pid).getD []).length + 1 := by
          simpa [List.length_cons] using hq
        rw [if_pos hq]
        simp [hnone, hmem, hq2]
      · have hq2 : ¬ l.quorum ≤ ((findAcks l.acks pid).getD []).length + 1 := by
          simpa [List.length_cons] using hq
        rw [if_neg hq]
        simp [hq2]

/-- C8: an Acceptor handling `Prepare { proposal_id = pid, from = proposer }`
replies with exactly one `Send` of
`Promise { accepted_proposal = latest_accepted_proposal, proposal_response = pid }`
to `proposer` and sets `latest_promise := pid` iff `latest_promise` is unset
or `pid ≥ latest_promise` (lexicographically, which is
`promiseLeOpt latest_promise (some pid)`); otherwise it returns zero actions
and leaves the state unchanged. -/
theorem acceptor_prepare_reply_iff (V : Type) (a : Acceptor V) (pid : Pid)
    (proposer : NodeId) (sender : NodeId) :
    (Acceptor.on_message a sender (PaxosMsg.Prepare pid proposer) =
        ({ a with latest_promise := some pid },
         [Action.Send proposer a.node_id
            (PaxosMsg.Promise a.latest_accepted_proposal pid)]) ↔
      promiseLeOpt a.latest_promise (some pid)) ∧
    (Acceptor.on_message a sender (PaxosMsg.Prepare pid proposer) = (a, []) ↔
      ¬ promiseLeOpt a.latest_promise (some pid)) := by
  simp only [Acceptor.on_message]
  by_cases hc : Acceptor.can_promise a.latest_promise pid = true
  · rw [if_pos hc]
    have hle := (can_promise_true_iff _ _).1 hc
    refine ⟨by simp [hle], ?_, ?_⟩
    · intro heq
      have h2 := congrArg (fun x => x.2) heq
      simp at h2
    · intro hn
      exact absurd hle hn
  · rw [if_neg hc]
    have hnle : ¬ promiseLeOpt a.latest_promise (some pid) := fun hp =>
      hc ((can_promise_true_iff _ _).2 hp)
    refine ⟨⟨?_, ?_⟩, by simp [hnle]⟩
    · intro heq
      have h2 := congrArg (fun x => x.2) heq
      simp at h2
    · intro hp
      exact absurd hp hnle

/-- C3: for every Proposer state and every inbound message (any variant, any
sender, any phase), `Proposer::on_message` returns the empty action list: the
`(Phase1, Promise)` arm calls `add_response` only for its state effect and
discards its actions, and every other arm returns `vec![]`.  In particular no
invocation ever emits a `Send`, `ProposeValue`, or `ChoseValue` action. -/
theorem proposer_on_message_no_actions (V : Type) (p : Proposer V)
    (sender : NodeId) (msg : PaxosMsg Nat V) :
    (Proposer.on_message p sender msg).2 = [] := by
  unfold Proposer.on_message
  cases p.phase <;> cases msg <;> rfl

/-- C6: starting a round returns exactly one `Send` of
`Prepare { pid, from = self }` per entry of the proposer's peer list
(`majority`), followed by exactly one `SetTimer` carrying the current timer
duration; every `Send` precedes the `SetTimer` in the returned list.  The
`on_init` conjunct holds unconditionally, for **every** proposer state (in
particular the fresh, still-Idle proposer `on_init` is actually invoked on);
the `on_timeout` conjunct holds for the current (non-stale) timer id while a
round is active (`phase ≠ Idle`, the only phases in which a timer is
pending), and its `SetTimer` carries the duration as just doubled by the
backoff. -/
theorem proposer_round_start_actions (V : Type) (p : Proposer V) (id : TimerId) :
    (Proposer.on_init p).2 =
        p.majority.map (fun dst =>
          Action.Send dst p.node_id (PaxosMsg.Prepare p.next_id p.node_id)) ++
          [Action.SetTimer (p.node_id, p.node_id) p.timer_duration_ms] ∧
    (p.timer_id = id → p.phase ≠ Phase.Idle →
      (Proposer.on_timeout p id).2 =
        p.majority.map (fun dst =>
          Action.Send dst p.node_id (PaxosMsg.Prepare p.next_id p.node_id)) ++
          [Action.SetTimer (p.node_id, p.node_id) (satMul2 p.timer_duration_ms)]) := by
  constructor
  · rfl
  · intro h1 h2
    unfold Proposer.on_timeout
    rw [if_neg (by simp [h1])]
    cases hp : p.phase with
    | Idle => exact absurd hp h2
    | Phase1 s => rfl
    | Phase2 s => rfl

/-- Witness for C6 at a concrete input: node 3, a 3-node context.  `on_init`
on the fresh (Idle) proposer emits three `Prepare{0}` sends then one
`SetTimer` with the initial duration 100; the subsequent non-stale timeout
(round active, `timer_id = (3, 3)`) emits three `Prepare{1}` sends then one
`SetTimer` with the doubled duration 200. -/
theorem proposer_round_start_actions_witness :
    (Proposer.on_init (Proposer.new Nat 3 ⟨3⟩ 0 100)).2 =
      [Action.Send 0 3 (PaxosMsg.Prepare 0 3), Action.Send 0 3 (PaxosMsg.Prepare 0 3),
       Action.Send 0 3 (PaxosMsg.Prepare 0 3), Action.SetTimer (3, 3) 100] ∧
    (Proposer.on_timeout (Proposer.on_init (Proposer.new Nat 3 ⟨3⟩ 0 100)).1 (3, 3)).2 =
      [Action.Send 0 3 (PaxosMsg.Prepare 1 3), Action.Send 0 3 (PaxosMsg.Prepare 1 3),
       Action.Send 0 3 (PaxosMsg.Prepare 1 3), Action.SetTimer (3, 3) 200] := by
  constructor
  · rw [(proposer_round_start_actions Nat (Proposer.new Nat 3 ⟨3⟩ 0 100) (3, 3)).1]
    decide
  · rw [(proposer_round_start_actions Nat
        (Proposer.on_init (Proposer.new Nat 3 ⟨3⟩ 0 100)).1 (3, 3)).2 (by decide) (by decide)]
    decide

lemma proposerAfter_next_id (k : Nat) : (proposerAfter k).next_id = min k U64MAX := by
  induction k with
  | zero =>
    have h : U64MAX = 18446744073709551615 := by norm_num [U64MAX]
    simp [proposerAfter, Proposer.new, h]
  | succ k ih =>
    have hstep : (proposerAfter (k + 1)).next_id = satAdd1 (proposerAfter k).next_id := rfl
    have h : U64MAX = 18446744073709551615 := by norm_num [U64MAX]
    rw [hstep, ih]
    unfold satAdd1
    rw [h]
    omega

/-- C5 (amended): each `start_round` allocates a `ProposalId` strictly
greater than every one previously allocated **as long as the counter has not
saturated**: the pid allocated by round start `k + 1` is `min k (2^64 - 1)`,
so allocations are strictly increasing for all `j < k ≤ u64::MAX`, and from
the `(2^64 + 1)`-th start onwards the saturating `next_id` repeats
`u64::MAX` (see `proposer_pid_saturation_cex`). -/
theorem proposer_pid_strict_mono_below_saturation (j k : Nat) (hjk : j < k)
    (hk : k ≤ U64MAX) :
    (proposerAfter j).next_id < (proposerAfter k).next_id := by
  rw [proposerAfter_next_id, proposerAfter_next_id]
  have h : U64MAX = 18446744073709551615 := by norm_num [U64MAX]
  rw [h] at hk ⊢
  omega

/-- Witness for C5 at a concrete input: the first round start allocates pid
`0`, the second allocates pid `1`. -/
theorem proposer_pid_strict_mono_witness :
    0 < 1 ∧ 1 ≤ U64MAX ∧ (proposerAfter 0).next_id < (proposerAfter 1).next_id :=
  ⟨by norm_num, by norm_num [U64MAX],
    proposer_pid_strict_mono_below_saturation 0 1 (by norm_num) (by norm_num [U64MAX])⟩

/-- Counterexample to C5 as stated: after `u64::MAX` round starts the next
allocation no longer exceeds the previous one — the `(2^64 + 1)`-th and the
`(2^64 + 2)`-th round starts allocate the same pid (`next_id.saturating_add(1)`
is stuck at `u64::MAX`), so `next_pid` is not strictly increasing over the
proposer's whole lifetime. -/
theorem proposer_pid_saturation_cex :
    (proposerAfter (U64MAX + 1)).next_id = (proposerAfter U64MAX).next_id := by
  rw [proposerAfter_next_id, proposerAfter_next_id]
  have h : U64MAX = 18446744073709551615 := by norm_num [U64MAX]
  rw [h]
  omega

/-- C1 is a code bug: a 3-node Proposer (quorum 2) in Phase 1 for pid 0 with
one collected promise and a reported accepted proposal `(5, 7)` receives the
quorum-crossing `Promise` from node 2, and `on_message` returns **zero**
actions — no `AcceptProposal` broadcast ever happens.  Internally
`add_response` computes merely `[ProposeValue 7]` (never an `AcceptProposal`
send, and never the candidate value when no accepted proposal was reported),
and `on_message` discards even that. -/
theorem proposer_quorum_promise_emits_nothing :
    (Proposer.on_message
        ({ Proposer.new Nat 0 ⟨3⟩ 9 100 with
            phase := Phase.Phase1 ⟨⟨3⟩, 0, [1], [⟨5, 7⟩]⟩ }) 2
        (PaxosMsg.Promise none 0)).2 = [] ∧
    (ProposerPhase1State.add_response (⟨⟨3⟩, 0, [1], [⟨5, 7⟩]⟩ : ProposerPhase1State Nat)
        2 none 0).2 = [Action.ProposeValue 7] := by decide

/-- C2 is a code bug: an Acceptor accepting `AcceptProposal { (1,0), 42 }`
broadcasts one `Learn` message per configured learner, but a Learner's
`on_message` only handles the `Accepted` variant: delivering that `Learn`
notification to the learner — from either of two distinct acceptors, enough
for quorum 2 — returns no actions and leaves the learner unchanged, so no
`ChoseValue` is ever emitted from acceptor notifications. -/
theorem acceptor_learner_variant_mismatch :
    (Acceptor.on_message (Acceptor.new Nat 4 ⟨3⟩ [7]) 0
        (PaxosMsg.AcceptProposal (1, 0) 42)).2 = [Action.Send 7 4 (PaxosMsg.Learn (1, 0) 42)] ∧
    Learner.on_message (Learner.new Nat 7 ⟨3⟩) 4 (PaxosMsg.Learn (1, 0) 42) =
      (Learner.new Nat 7 ⟨3⟩, []) ∧
    Learner.on_message (Learner.new Nat 7 ⟨3⟩) 5 (PaxosMsg.Learn (1, 0) 42) =
      (Learner.new Nat 7 ⟨3⟩, []) := by decide

/-- C4 is a code bug: `next_timer_id` stores `(next_id, node_id)` into
`self.timer_id` but *returns* `(node_id, node_id)`, which `on_phase1_start`
then writes back over `self.timer_id`.  Hence every round of node 5 installs
the same timer id `(5, 5)`: after starting round r1 and restarting into r2,
the r1 timer id still equals the current one, so delivering `Timeout {(5,5)}`
again produces a non-empty action list (a spurious round restart) instead of
the zero actions the claim requires. -/
theorem proposer_timer_id_not_fresh :
    (Proposer.on_init (Proposer.new Nat 5 ⟨3⟩ 0 100)).1.timer_id = (5, 5) ∧
    (Proposer.on_timeout (Proposer.on_init (Proposer.new Nat 5 ⟨3⟩ 0 100)).1 (5, 5)).1.timer_id
      = (5, 5) ∧
    (Proposer.on_timeout
        (Proposer.on_timeout (Proposer.on_init (Proposer.new Nat 5 ⟨3⟩ 0 100)).1 (5, 5)).1
        (5, 5)).2 ≠ [] := by decide

/-- Counterexample to C7 as stated: a fresh Learner (3 nodes, quorum 2)
receives `Accepted {((1,0), 10)}` from acceptor 1 and then
`Accepted {((1,0), 20)}` from acceptor 2 — two acknowledgments for the same
pid but **different** values.  No `(pid, v)` pair has quorum-many
acknowledgments, yet the learner emits `ChoseValue 20`: the acks map is keyed
by pid alone, so differing values count toward the same quorum. -/
theorem learner_mixed_values_cex :
    (Learner.on_message (Learner.new Nat 9 ⟨3⟩) 1 (PaxosMsg.Accepted ⟨(1, 0), 10⟩)).2 = [] ∧
    (Learner.on_message
        (Learner.on_message (Learner.new Nat 9 ⟨3⟩) 1 (PaxosMsg.Accepted ⟨(1, 0), 10⟩)).1 2
        (PaxosMsg.Accepted ⟨(1, 0), 20⟩)).2 = [Action.ChoseValue 20] := by decide

end PaxosSM
